import Mathlib

/-!
Verification of the `inference-perf` load-orchestrator core against its
specification.  Every definition below is a shallow embedding of a Python
function of the repository (file and symbol given in each doc comment);
time values and rates are modelled as rationals, random draws as explicit
argument lists.
-/

/-! ## Load timers (`inference_perf/loadgen/load_timer.py`) -/

/-- Stream semantics of `ConstantLoadTimer.start_timer` from
`inference_perf/loadgen/load_timer.py` (lines 45-52).  The generator keeps a
running `next_time` starting at `initial`, and on each step executes
`next_time += self._rand.exponential(1 / self._rate)` and yields `next_time`.
The exponential samples (which are always nonnegative) are modelled by the
explicit list `draws`; one timestamp is yielded per draw. -/
def constantStartTimer (initial : ℚ) (draws : List ℚ) : List ℚ :=
  match draws with
  | [] => []
  | d :: ds => (initial + d) :: constantStartTimer (initial + d) ds

/-- Stream semantics of `PoissonLoadTimer.start_timer` from
`inference_perf/loadgen/load_timer.py` (lines 60-78).  Each outer loop
iteration draws `req_count = self._rand.poisson(self._rate)`; a round is
modelled as the pair of that draw `k` and the list of exponential samples the
nested `ConstantLoadTimer(req_count)` consumes in that round (the code takes
exactly `k` of them, one per `next(timer.start_timer(next_time))` call).
If `req_count < 1` the code executes `yield next_time + 1.0; continue`,
leaving `next_time` unchanged; otherwise it yields the nested constant-timer
stream and `next_time` advances to the last yielded timestamp. -/
def poissonStartTimer (initial : ℚ) (rounds : List (ℕ × List ℚ)) : List ℚ :=
  match rounds with
  | [] => []
  | (k, ds) :: rest =>
    if k < 1 then
      (initial + 1) :: poissonStartTimer initial rest
    else
      let ys := constantStartTimer initial ds
      ys ++ poissonStartTimer (ys.getLastD initial) rest

/-! ## Circuit-breaker triggers (`inference_perf/circuit_breaker/triggers/`) -/

/-- Embedding of `HitSample` from
`inference_perf/circuit_breaker/triggers/base.py`: a wall-clock timestamp
(modelled as a rational) and an integer hit value (the breaker feeds `1` for
hit and `0` for miss). -/
structure HitSample where
  ts : ℚ
  hit : ℤ
deriving DecidableEq, Repr

/-- State of the `Consecutive` trigger from
`inference_perf/circuit_breaker/triggers/consecutive.py`: threshold `n`,
counter `c` and the `_fired` flag. -/
structure Consecutive where
  n : ℕ
  c : ℕ
  fired : Bool
deriving DecidableEq, Repr

/-- Constructor `Consecutive.__init__(threshold)`: counter `0`, not fired. -/
def Consecutive.init (threshold : ℕ) : Consecutive :=
  { n := threshold, c := 0, fired := false }

/-- Embedding of `Consecutive.update` (consecutive.py lines 14-17):
`self.c = self.c + 1 if s.hit else 0` (Python truthiness: any nonzero hit
counts) followed by `if self.c >= self.n: self._fired = True`. -/
def Consecutive.update (t : Consecutive) (s : HitSample) : Consecutive :=
  let c := if s.hit ≠ 0 then t.c + 1 else 0
  { t with c := c, fired := t.fired || decide (t.n ≤ c) }

/-- Embedding of `Consecutive.reset` (consecutive.py lines 22-24). -/
def Consecutive.reset (t : Consecutive) : Consecutive :=
  { t with c := 0, fired := false }

/-- Feeding a sequence of samples to a `Consecutive` trigger, one
`update` call per sample in order. -/
def Consecutive.feed (t : Consecutive) (l : List HitSample) : Consecutive :=
  l.foldl Consecutive.update t

/-- State of the `RateOverWindow` trigger from
`inference_perf/circuit_breaker/triggers/rate_over_window.py`: window size in
seconds, rate threshold, minimum sample count, the sample deque and the
`_fired` flag. -/
structure RateOverWindow where
  size : ℚ
  th : ℚ
  min : ℕ
  buf : List HitSample
  fired : Bool
deriving DecidableEq, Repr

/-- Constructor `RateOverWindow.__init__(window_sec, threshold, min_samples)`:
empty deque, not fired. -/
def RateOverWindow.init (window_sec threshold : ℚ) (min_samples : ℕ) : RateOverWindow :=
  { size := window_sec, th := threshold, min := min_samples, buf := [], fired := false }

/-- Embedding of `RateOverWindow.update` (rate_over_window.py lines 19-30):
append the sample, pop from the left while the head is older than
`now - size` (a `dropWhile`), then, when `len(buf) >= min`, compute
`rate = hits / total if total else 0.0` and set `_fired` when
`rate >= threshold`. -/
def RateOverWindow.update (t : RateOverWindow) (s : HitSample) : RateOverWindow :=
  let now := s.ts
  let cutoff := now - t.size
  let buf := (t.buf ++ [s]).dropWhile (fun x => decide (x.ts < cutoff))
  let total := buf.length
  if t.min ≤ total then
    let hits : ℤ := (buf.map HitSample.hit).sum
    let rate : ℚ := if total ≠ 0 then (hits : ℚ) / (total : ℚ) else 0
    { t with buf := buf, fired := t.fired || decide (t.th ≤ rate) }
  else
    { t with buf := buf }

/-- Embedding of `RateOverWindow.reset` (rate_over_window.py lines 35-37). -/
def RateOverWindow.reset (t : RateOverWindow) : RateOverWindow :=
  { t with buf := [], fired := false }

/-- Feeding a sequence of samples to a `RateOverWindow` trigger, one
`update` call per sample in order. -/
def RateOverWindow.feed (t : RateOverWindow) (l : List HitSample) : RateOverWindow :=
  l.foldl RateOverWindow.update t

/-- The samples of `l` whose timestamp lies in the closed window
`[t - w, t]`.  This is the specification-side reading of the deque retained
by `RateOverWindow` at a sample of time `t`. -/
def windowSamples (w : ℚ) (l : List HitSample) (t : ℚ) : List HitSample :=
  l.filter (fun x => decide (t - w ≤ x.ts) && decide (x.ts ≤ t))

/-- Specification-side firing condition of `RateOverWindow` for the prefix
`p` of the sample sequence ending at some sample: with `t` the time of the
last sample of `p`, the samples within `[t - w, t]` number at least `m` and
their hit rate is at least `th`. -/
def prefixCond (w th : ℚ) (m : ℕ) (p : List HitSample) : Prop :=
  match p.getLast? with
  | none => False
  | some z =>
    let S := windowSamples w p z.ts
    m ≤ S.length ∧ th ≤ ((S.map HitSample.hit).sum : ℚ) / (S.length : ℚ)

/-- A trigger of the `SimpleCircuitBreaker`, which holds a heterogeneous list
of the two trigger variants built by `build_trigger`
(`inference_perf/circuit_breaker/triggers/base.py`). -/
inductive TriggerState
  | consecutive : Consecutive → TriggerState
  | rateOverWindow : RateOverWindow → TriggerState
deriving DecidableEq, Repr

/-- Dispatch of `Trigger.update` over the two trigger variants. -/
def TriggerState.update (t : TriggerState) (s : HitSample) : TriggerState :=
  match t with
  | consecutive c => consecutive (c.update s)
  | rateOverWindow r => rateOverWindow (r.update s)

/-- Dispatch of `Trigger.fired` over the two trigger variants. -/
def TriggerState.fired (t : TriggerState) : Bool :=
  match t with
  | consecutive c => c.fired
  | rateOverWindow r => r.fired

/-- Dispatch of `Trigger.reset` over the two trigger variants (each variant
defines a `reset` clearing its sliding state and fired flag). -/
def TriggerState.reset (t : TriggerState) : TriggerState :=
  match t with
  | consecutive c => consecutive c.reset
  | rateOverWindow r => rateOverWindow r.reset

/-- State of `SimpleCircuitBreaker` from
`inference_perf/circuit_breaker/simple_breaker.py`: the trigger list built
from the config (owned by the `CircuitBreaker` base class) and the `_open`
flag, initialised to `False`. -/
structure SimpleCircuitBreaker where
  triggers : List TriggerState
  _open : Bool
deriving DecidableEq, Repr

/-- Embedding of `SimpleCircuitBreaker.feed` (simple_breaker.py lines 32-40).
The JMESPath evaluation of `matches` and `rules` over the serialized metric
is abstracted into the precomputed `matched` flag and the hit value carried
by `s` (`hit = 1 if not self._rules or self._search(self._rules, data) else
0`).  When matched, every trigger is updated with the stamped sample and
`_open` is set if any trigger reports fired. -/
def SimpleCircuitBreaker.feed (b : SimpleCircuitBreaker) (matched : Bool)
    (s : HitSample) : SimpleCircuitBreaker :=
  if matched then
    let ts := b.triggers.map (fun t => t.update s)
    { b with triggers := ts, _open := b._open || ts.any TriggerState.fired }
  else b

/-- Embedding of `SimpleCircuitBreaker.is_open` (simple_breaker.py lines
42-43). -/
def SimpleCircuitBreaker.is_open (b : SimpleCircuitBreaker) : Bool :=
  b._open

/-- Embedding of `SimpleCircuitBreaker.reset` (simple_breaker.py lines
45-46): the body is exactly `self._open = False`; the triggers are left
untouched (no `t.reset()` call occurs). -/
def SimpleCircuitBreaker.reset (b : SimpleCircuitBreaker) : SimpleCircuitBreaker :=
  { b with _open := false }

/-! ## Request lifecycle records (`inference_perf/apis/base.py`) -/

/-- Embedding of `InferenceInfo` (apis/base.py lines 23-26): token counts
(Python `int`) and the ordered per-chunk timestamps. -/
structure InferenceInfo where
  input_tokens : ℤ
  output_tokens : ℤ
  output_token_times : List ℚ
deriving DecidableEq, Repr

/-- Embedding of `ErrorResponseInfo` (apis/base.py lines 29-31): the error
kind string and message. -/
structure ErrorResponseInfo where
  error_type : String
  error_msg : String
deriving DecidableEq, Repr

/-- Embedding of `RequestLifecycleMetric` (apis/base.py lines 34-42). -/
structure RequestLifecycleMetric where
  stage_id : Option ℤ
  scheduled_time : ℚ
  start_time : ℚ
  end_time : ℚ
  request_data : String
  response_data : Option String
  info : InferenceInfo
  error : Option ErrorResponseInfo
deriving DecidableEq, Repr

/-! ## HTTP client (`inference_perf/client/modelserver/openai_client.py`) -/

/-- Embedding of the response-arrived path of
`openAIModelServerClientSession.process_request` (openai_client.py lines
144-171): once an HTTP response arrives, `error` is `None` unless
`response.status != 200`, in which case
`ErrorResponseInfo(error_msg=response_content,
error_type=f"{response.status} {response.reason}")` is recorded; the
lifecycle metric keeps the response body verbatim in `response_data`.
The awaited response is abstracted into its status, reason and body text,
and the clock reads into the given timestamps. -/
def processRequestResponse (status : ℕ) (reason : String) (responseContent : String)
    (stageId : ℤ) (requestData : String) (info : InferenceInfo)
    (start endTime scheduledTime : ℚ) : RequestLifecycleMetric :=
  { stage_id := some stageId
    scheduled_time := scheduledTime
    start_time := start
    end_time := endTime
    request_data := requestData
    response_data := some responseContent
    info := info
    error :=
      if status ≠ 200 then
        some { error_type := toString status ++ " " ++ reason, error_msg := responseContent }
      else none }

/-! ## Summarizer (`inference_perf/reportgen/base.py`) -/

/-- Result shape of `summarize` (reportgen/base.py lines 38-50): the
six-number summary produced for a non-empty sample list. -/
structure SummaryStats where
  mean : ℚ
  min : ℚ
  p10 : ℚ
  p50 : ℚ
  p90 : ℚ
  max : ℚ
deriving DecidableEq, Repr

/-- Linear-interpolation percentile over an already sorted sample list,
as computed by `np.percentile(items, q)` with the default interpolation:
with `h = (n - 1) * q / 100` and `f = floor h`, the result is
`a[f] + (h - f) * (a[f+1] - a[f])` (and `a[f]` when `f` is the last
index). -/
def percentileLinear (sorted : List ℚ) (q : ℚ) : ℚ :=
  let n := sorted.length
  let h : ℚ := ((n : ℚ) - 1) * q / 100
  let f : ℕ := (Int.floor h).toNat
  let a := sorted.getD f 0
  let b := sorted.getD (f + 1) a
  a + (h - (f : ℚ)) * (b - a)

/-- Embedding of `summarize` (reportgen/base.py lines 38-50): `None` on an
empty sample list, otherwise the mean, min, p10, p50, p90 and max of the
samples. -/
def summarize (items : List ℚ) : Option SummaryStats :=
  if items.length ≠ 0 then
    let sorted := List.insertionSort (· ≤ ·) items
    some { mean := items.sum / (items.length : ℚ)
           min := sorted.headD 0
           p10 := percentileLinear sorted 10
           p50 := percentileLinear sorted 50
           p90 := percentileLinear sorted 90
           max := sorted.getLastD 0 }
  else none

/-- Maximum of a list of rationals; `max()` in Python raises `ValueError`
on an empty sequence, so callers must guard the empty case. -/
def maxQ : List ℚ → ℚ
  | [] => 0
  | [x] => x
  | x :: y :: xs => max x (maxQ (y :: xs))

/-- Minimum of a list of rationals; `min()` in Python raises `ValueError`
on an empty sequence, so callers must guard the empty case. -/
def minQ : List ℚ → ℚ
  | [] => 0
  | [x] => x
  | x :: y :: xs => min x (minQ (y :: xs))

/-- The `load_summary` dict built by `summarize_requests` (reportgen/base.py
lines 109-121); the last three fields are present only when a `stage_rate`
is passed. -/
structure LoadSummary where
  count : ℕ
  schedule_accuracy : Option SummaryStats
  send_duration : Option ℚ
  requested_rate : Option ℚ
  achieved_rate : Option ℚ
deriving DecidableEq, Repr

/-- The `successes` dict built by `summarize_requests` (reportgen/base.py
lines 125-160). -/
structure SuccessesSummary where
  count : ℕ
  request_latency : Option SummaryStats
  normalized_time_per_output_token : Option SummaryStats
  time_per_output_token : Option SummaryStats
  time_to_first_token : Option SummaryStats
  inter_token_latency : Option SummaryStats
  input_tokens_per_sec : ℚ
  output_tokens_per_sec : ℚ
  total_tokens_per_sec : ℚ
  requests_per_sec : ℚ
  prompt_len : Option SummaryStats
  output_len : Option SummaryStats
deriving DecidableEq, Repr

/-- The `failures` dict built by `summarize_requests` (reportgen/base.py
lines 161-165). -/
structure FailuresSummary where
  count : ℕ
  request_latency : Option SummaryStats
  prompt_len : Option SummaryStats
deriving DecidableEq, Repr

/-- Embedding of `ResponsesSummary` (reportgen/base.py lines 53-56). -/
structure ResponsesSummary where
  load_summary : LoadSummary
  successes : SuccessesSummary
  failures : FailuresSummary
deriving DecidableEq, Repr

/-- The `all_successful` list of `summarize_requests` (reportgen/base.py
line 100): the records whose `error` is `None`. -/
def successfulOf (metrics : List RequestLifecycleMetric) : List RequestLifecycleMetric :=
  metrics.filter (fun x => x.error.isNone)

/-- The `streamable` list of `summarize_requests` (reportgen/base.py line
104): successful records with `x.info.output_token_times` truthy (non-empty)
and of length strictly greater than one. -/
def streamableOf (metrics : List RequestLifecycleMetric) : List RequestLifecycleMetric :=
  (successfulOf metrics).filter
    (fun x => !x.info.output_token_times.isEmpty && decide (1 < x.info.output_token_times.length))

/-- The sample list `[x.info.output_token_times[0] - x.start_time for x in
streamable]` passed to `summarize` for `time_to_first_token`
(reportgen/base.py line 143). -/
def ttftSamplesOf (metrics : List RequestLifecycleMetric) : List ℚ :=
  (streamableOf metrics).map (fun x => x.info.output_token_times.headD 0 - x.start_time)

/-- Embedding of `summarize_requests` (reportgen/base.py lines 99-166).
The result is `none` exactly where the Python function raises: on an empty
record list (`max` over an empty sequence at line 103), when a `stage_rate`
is given and `send_duration` is zero (`achieved_rate` division at line 120),
and when `total_time` is zero (the throughput divisions at lines 153-156,
which are evaluated after `achieved_rate`). -/
def summarize_requests (metrics : List RequestLifecycleMetric)
    (stage_rate : Option ℚ) : Option ResponsesSummary :=
  match metrics with
  | [] => none
  | _ :: _ =>
    let all_successful := successfulOf metrics
    let all_failed := metrics.filter (fun x => x.error.isSome)
    let total_time := maxQ (metrics.map (fun x => x.end_time))
      - minQ (metrics.map (fun x => x.start_time))
    let streamable := streamableOf metrics
    let schedule_deltas := metrics.map (fun x => x.start_time - x.scheduled_time)
    let send_duration := maxQ (metrics.map (fun x => x.start_time))
      - minQ (metrics.map (fun x => x.start_time))
    if stage_rate.isSome ∧ send_duration = 0 then none
    else if total_time = 0 then none
    else
      some
        { load_summary :=
            match stage_rate with
            | none =>
              { count := metrics.length
                schedule_accuracy := summarize schedule_deltas
                send_duration := none, requested_rate := none, achieved_rate := none }
            | some r =>
              { count := metrics.length
                schedule_accuracy := summarize schedule_deltas
                send_duration := some send_duration
                requested_rate := some r
                achieved_rate := some ((metrics.length : ℚ) / send_duration) }
          successes :=
            { count := all_successful.length
              request_latency :=
                summarize (all_successful.map (fun x => x.end_time - x.start_time))
              normalized_time_per_output_token :=
                summarize (all_successful.map (fun x =>
                  if (x.info.output_tokens : ℚ) ≠ 0 then
                    (x.end_time - x.start_time) / (x.info.output_tokens : ℚ)
                  else 0))
              time_per_output_token :=
                summarize ((streamable.filter
                    (fun x => decide (1 < x.info.output_token_times.length))).map
                  (fun x => (x.info.output_token_times.getLastD 0
                      - x.info.output_token_times.headD 0)
                    / ((x.info.output_token_times.length : ℚ) - 1)))
              time_to_first_token := summarize (ttftSamplesOf metrics)
              inter_token_latency :=
                summarize (streamable.flatMap (fun x =>
                  (x.info.output_token_times.zip x.info.output_token_times.tail).map
                    (fun p => p.2 - p.1)))
              input_tokens_per_sec :=
                (((all_successful.map (fun x => x.info.input_tokens)).sum : ℚ)) / total_time
              output_tokens_per_sec :=
                (((all_successful.map (fun x => x.info.output_tokens)).sum : ℚ)) / total_time
              total_tokens_per_sec :=
                (((all_successful.map (fun x =>
                  (x.info.input_tokens + x.info.output_tokens : ℤ))).sum : ℚ)) / total_time
              requests_per_sec := (all_successful.length : ℚ) / total_time
              prompt_len :=
                summarize (all_successful.map (fun x => (x.info.input_tokens : ℚ)))
              output_len :=
                summarize (all_successful.map (fun x => (x.info.output_tokens : ℚ))) }
          failures :=
            { count := all_failed.length
              request_latency :=
                summarize (all_failed.map (fun x => x.end_time - x.start_time))
              prompt_len :=
                summarize (all_failed.map (fun x => (x.info.input_tokens : ℚ))) } }

/-! ## Worker per-request task (`inference_perf/loadgen/load_generator.py`) -/

/-- The ways a `schedule_client` task (load_generator.py lines 142-169) can
terminate: the awaited `client.process_request` completes normally (the
client records a success metric), the client catches an internal exception
and records a failure metric, the task is cancelled while sleeping until
`request_time` (before the active counter was incremented), or the task is
cancelled while the request is in flight. -/
inductive TaskOutcome
  | completed
  | failedRecorded
  | cancelledDuringSleep
  | cancelledDuringRequest
deriving DecidableEq, Repr

/-- Observable side effects of one `schedule_client` task, in order:
the atomic counter updates, the lifecycle-record emission performed inside
`client.process_request`, the `queue.task_done()` acknowledgement and the
semaphore release. -/
inductive WorkerEffect
  | incActive
  | decActive
  | incFinished
  | taskDone
  | semRelease
  | emitRecord
deriving DecidableEq, Repr

/-- Effect trace of the `schedule_client` coroutine (load_generator.py lines
142-169) for each outcome.  The body sleeps until `request_time`, increments
`active_requests_counter` setting `inflight = True`, and awaits
`client.process_request` (which records a lifecycle metric on completion or
on a caught request failure, but not on cancellation); `CancelledError` is
swallowed by the `except` clause, and the `finally` block decrements the
active counter when `inflight`, increments `finished_requests_counter`,
marks the queue item done and releases the semaphore. -/
def schedule_client (o : TaskOutcome) : List WorkerEffect :=
  let finallyBlock (inflight : Bool) : List WorkerEffect :=
    (if inflight then [WorkerEffect.decActive] else [])
      ++ [WorkerEffect.incFinished, WorkerEffect.taskDone, WorkerEffect.semRelease]
  match o with
  | .completed =>
    [WorkerEffect.incActive, WorkerEffect.emitRecord] ++ finallyBlock true
  | .failedRecorded =>
    [WorkerEffect.incActive, WorkerEffect.emitRecord] ++ finallyBlock true
  | .cancelledDuringSleep => finallyBlock false
  | .cancelledDuringRequest =>
    [WorkerEffect.incActive] ++ finallyBlock true

/-! ## Specification-side predicates -/

/-- Length of the trailing run of hits of a sample sequence: the number of
consecutive hits ending at (and including) the last sample. -/
def trailingHits (l : List HitSample) : ℕ :=
  (l.reverse.takeWhile (fun s => s.hit != 0)).length

/-- Sample `i` of `l` is the `n`-th consecutive hit (or a later hit of a run
of at least `n`): the run of hits ending at sample `i` has length at least
`n`. -/
def hasNthConsecutiveHit (n : ℕ) (l : List HitSample) : Prop :=
  ∃ i < l.length, n ≤ trailingHits (l.take (i + 1))

/-- Closed form of the deque retained by `RateOverWindow` after feeding the
time-ordered sample list `l`: the samples at least as recent as
`last.ts - w`. -/
def bufSpec (w : ℚ) (l : List HitSample) : List HitSample :=
  match l.getLast? with
  | none => []
  | some z => l.filter (fun x => decide (z.ts - w ≤ x.ts))

/-! ## Theorems -/

/-- C1.  The claim that every scheduler variant yields monotonically
non-decreasing timestamps fails on the code: `PoissonLoadTimer.start_timer`
does not advance `next_time` in its `req_count < 1` branch, so after a zero
Poisson draw (yielding `initial + 1`) a following round with one request and
an exponential sample of `1/2` yields `initial + 1/2`, a strictly earlier
timestamp. -/
theorem poisson_scheduled_ts_not_monotonic :
    poissonStartTimer 0 [(0, []), (1, [1/2])] = [1, 1/2] ∧
      ¬ List.Chain' (· ≤ ·) (poissonStartTimer 0 [(0, []), (1, [1/2])]) := by
  have h : poissonStartTimer 0 [(0, []), (1, [1/2])] = [1, 1/2] := by
    norm_num [poissonStartTimer, constantStartTimer]
  refine ⟨h, ?_⟩
  rw [h]
  intro hc
  have h12 := (List.chain'_cons.mp hc).1
  norm_num at h12

/-- C2.  The claim that a zero Poisson draw advances the internal timestamp
by one second, so that no request time earlier than that is produced, fails
on the code: after yielding `next_time + 1.0` the generator leaves
`next_time` unchanged, and the next round emits `initial + 1/2`, which is
earlier than the already-produced `initial + 1`. -/
theorem poisson_zero_draw_does_not_advance :
    poissonStartTimer 0 [(0, []), (1, [1/2])] = [1, 1/2] ∧
      (1/2 : ℚ) ∈ poissonStartTimer 0 [(0, []), (1, [1/2])] ∧ (1/2 : ℚ) < 0 + 1 := by
  have h : poissonStartTimer 0 [(0, []), (1, [1/2])] = [1, 1/2] := by
    norm_num [poissonStartTimer, constantStartTimer]
  refine ⟨h, ?_, by norm_num⟩
  rw [h]
  simp

/-- C5.  The claim that `reset()` clears every per-trigger sliding state
fails on the code: `SimpleCircuitBreaker.reset` only clears `_open` and
never calls the triggers' own `reset`.  Feeding one matched hit to a breaker
with a `Consecutive(1)` trigger opens it; after `reset()` the breaker reports
closed but the trigger still holds counter `1` and fired flag `True`
(instead of the cleared `Consecutive.init 1` the claim requires), so a
subsequent matched miss immediately re-opens the breaker. -/
theorem breaker_reset_leaves_trigger_state :
    ((SimpleCircuitBreaker.feed ⟨[TriggerState.consecutive (Consecutive.init 1)], false⟩
        true ⟨0, 1⟩).reset).is_open = false ∧
    ((SimpleCircuitBreaker.feed ⟨[TriggerState.consecutive (Consecutive.init 1)], false⟩
        true ⟨0, 1⟩).reset).triggers
      = [TriggerState.consecutive { n := 1, c := 1, fired := true }] ∧
    ((SimpleCircuitBreaker.feed ⟨[TriggerState.consecutive (Consecutive.init 1)], false⟩
        true ⟨0, 1⟩).reset).triggers ≠ [TriggerState.consecutive (Consecutive.init 1)] ∧
    (((SimpleCircuitBreaker.feed ⟨[TriggerState.consecutive (Consecutive.init 1)], false⟩
        true ⟨0, 1⟩).reset).feed true ⟨1, 0⟩).is_open = true := by
  decide

/-- C8.  For every arrived HTTP response, the recorded lifecycle metric has
an `error` exactly when the status is not 200; in that case the error kind
is the string of the status followed by the reason and the error message is
the verbatim body; the response body is always kept verbatim in
`response_data`. -/
theorem process_request_error_iff (status : ℕ) (reason responseContent requestData : String)
    (stageId : ℤ) (info : InferenceInfo) (start endTime scheduledTime : ℚ) :
    ((processRequestResponse status reason responseContent stageId requestData info
        start endTime scheduledTime).error.isSome ↔ status ≠ 200) ∧
    (status ≠ 200 →
      (processRequestResponse status reason responseContent stageId requestData info
        start endTime scheduledTime).error
        = some { error_type := toString status ++ " " ++ reason,
                 error_msg := responseContent }) ∧
    (status = 200 →
      (processRequestResponse status reason responseContent stageId requestData info
        start endTime scheduledTime).error = none) ∧
    (processRequestResponse status reason responseContent stageId requestData info
        start endTime scheduledTime).response_data = some responseContent := by
  by_cases h : status = 200 <;> simp [processRequestResponse, h]

/-- Witness for C8 at a concrete 500 response and a concrete 200 response. -/
theorem process_request_error_iff_witness :
    (processRequestResponse 500 "Internal Server Error" "boom" 0 "req" ⟨0, 0, []⟩
        0 1 0).error = some { error_type := "500 Internal Server Error", error_msg := "boom" } ∧
    (processRequestResponse 200 "OK" "all good" 0 "req" ⟨0, 0, []⟩ 0 1 0).error = none := by
  constructor
  · have h := (process_request_error_iff 500 "Internal Server Error" "boom" "req" 0
      ⟨0, 0, []⟩ 0 1 0).2.1 (by decide)
    exact h.trans (by decide)
  · exact (process_request_error_iff 200 "OK" "all good" "req" 0 ⟨0, 0, []⟩ 0 1 0).2.2.1 rfl

/-- C10.  For every outcome of a worker's per-request task, the task
increments the finished-requests counter exactly once, marks the queue item
done exactly once, releases its semaphore permit exactly once, and balances
the active-requests counter; a task cancelled in flight emits no lifecycle
record yet still performs all of these. -/
theorem worker_task_effects (o : TaskOutcome) :
    (schedule_client o).count WorkerEffect.incFinished = 1 ∧
    (schedule_client o).count WorkerEffect.taskDone = 1 ∧
    (schedule_client o).count WorkerEffect.semRelease = 1 ∧
    (schedule_client o).count WorkerEffect.incActive
      = (schedule_client o).count WorkerEffect.decActive ∧
    (o = TaskOutcome.cancelledDuringRequest →
      (schedule_client o).count WorkerEffect.emitRecord = 0) := by
  cases o <;>
    exact ⟨by decide, by decide, by decide, by decide,
      by intro h; first | exact absurd h (by decide) | decide⟩

/-- Witness for C10 at the cancelled-in-flight outcome. -/
theorem worker_task_effects_witness :
    (schedule_client TaskOutcome.cancelledDuringRequest).count WorkerEffect.incFinished = 1 ∧
    (schedule_client TaskOutcome.cancelledDuringRequest).count WorkerEffect.emitRecord = 0 :=
  ⟨(worker_task_effects TaskOutcome.cancelledDuringRequest).1,
   (worker_task_effects TaskOutcome.cancelledDuringRequest).2.2.2.2 rfl⟩

/-- Feeding one more sample is one more `update` call. -/
theorem Consecutive.feed_concat (t : Consecutive) (l : List HitSample) (s : HitSample) :
    Consecutive.feed t (l ++ [s]) = (Consecutive.feed t l).update s := by
  simp [Consecutive.feed, List.foldl_append]

/-- The trailing hit run grows by one on a hit and collapses on a miss. -/
theorem trailingHits_append (l : List HitSample) (s : HitSample) :
    trailingHits (l ++ [s]) = if s.hit ≠ 0 then trailingHits l + 1 else 0 := by
  by_cases h : s.hit = 0 <;>
    simp [trailingHits, List.takeWhile_cons, h]

/-- The threshold field is never modified by `update`. -/
theorem Consecutive.feed_n (t : Consecutive) (l : List HitSample) :
    (Consecutive.feed t l).n = t.n := by
  induction l generalizing t with
  | nil => rfl
  | cons a l ih => simpa [Consecutive.feed] using ih (t.update a)

/-- The counter of a freshly initialised `Consecutive` trigger after feeding
a sample sequence equals the length of the trailing run of hits. -/
theorem Consecutive.feed_c (n : ℕ) (l : List HitSample) :
    (Consecutive.feed (Consecutive.init n) l).c = trailingHits l := by
  induction l using List.reverseRecOn with
  | nil => simp [Consecutive.feed, Consecutive.init, trailingHits]
  | append_singleton q s ih =>
    rw [Consecutive.feed_concat, trailingHits_append]
    by_cases h : s.hit = 0 <;> simp [Consecutive.update, h, ih]

/-- Appending a sample to the sequence either exposes a run ending at the
new sample or one that was already present. -/
theorem hasNthConsecutiveHit_append (n : ℕ) (q : List HitSample) (s : HitSample) :
    hasNthConsecutiveHit n (q ++ [s]) ↔
      hasNthConsecutiveHit n q ∨ n ≤ trailingHits (q ++ [s]) := by
  unfold hasNthConsecutiveHit
  constructor
  · rintro ⟨i, hi, hn⟩
    simp only [List.length_append, List.length_singleton] at hi
    rcases Nat.lt_or_ge i q.length with hlt | hge
    · exact Or.inl ⟨i, hlt, by rwa [List.take_append_of_le_length (by omega)] at hn⟩
    · have hiq : i = q.length := by omega
      subst hiq
      rw [List.take_of_length_le (by simp)] at hn
      exact Or.inr hn
  · rintro (⟨i, hi, hn⟩ | hn)
    · exact ⟨i, by simp; omega, by rwa [List.take_append_of_le_length (by omega)]⟩
    · exact ⟨q.length, by simp, by rwa [List.take_of_length_le (by simp)]⟩

/-- C3.  For every threshold of at least one, a `Consecutive` trigger fed a
sequence of hit and miss samples ends fired exactly when some sample of the
sequence is the end of a run of at least `n` consecutive hits; in
particular it never fires before the `n`-th consecutive hit, and a miss
before `n` consecutive hits leaves it unfired. -/
theorem consecutive_fired_iff (n : ℕ) (l : List HitSample) (hn : 1 ≤ n) :
    (Consecutive.feed (Consecutive.init n) l).fired = true ↔
      hasNthConsecutiveHit n l := by
  induction l using List.reverseRecOn with
  | nil =>
    simp [Consecutive.feed, Consecutive.init, hasNthConsecutiveHit]
  | append_singleton q s ih =>
    have hc := Consecutive.feed_c n q
    have hN := Consecutive.feed_n (Consecutive.init n) q
    rw [Consecutive.feed_concat, hasNthConsecutiveHit_append, trailingHits_append]
    simp only [Consecutive.update, Bool.or_eq_true, decide_eq_true_eq, hN, hc, ih]
    simp [Consecutive.init]

/-- Witness for C3: with threshold 2, the sequence hit, miss, hit, hit fires
(the fourth sample is the second consecutive hit). -/
theorem consecutive_fired_iff_witness :
    (Consecutive.feed (Consecutive.init 2) [⟨0, 1⟩, ⟨1, 0⟩, ⟨2, 1⟩, ⟨3, 1⟩]).fired = true :=
  (consecutive_fired_iff 2 [⟨0, 1⟩, ⟨1, 0⟩, ⟨2, 1⟩, ⟨3, 1⟩] (by decide)).mpr
    ⟨3, by decide, by decide⟩

/-- Feeding one more sample to a `RateOverWindow` is one more `update`. -/
theorem RateOverWindow.feed_snoc (t : RateOverWindow) (l : List HitSample) (s : HitSample) :
    RateOverWindow.feed t (l ++ [s]) = (RateOverWindow.feed t l).update s := by
  simp [RateOverWindow.feed, List.foldl_append]

/-- The configuration fields are never modified by `update`. -/
theorem RateOverWindow.update_params (t : RateOverWindow) (s : HitSample) :
    (t.update s).size = t.size ∧ (t.update s).th = t.th ∧ (t.update s).min = t.min := by
  unfold RateOverWindow.update
  dsimp only
  split <;> exact ⟨rfl, rfl, rfl⟩

/-- The deque after `update`: append the sample and pop stale heads. -/
theorem RateOverWindow.update_buf (t : RateOverWindow) (s : HitSample) :
    (t.update s).buf
      = (t.buf ++ [s]).dropWhile (fun x => decide (x.ts < s.ts - t.size)) := by
  unfold RateOverWindow.update
  dsimp only
  split <;> rfl

/-- The fired flag after `update`: sticky, newly set exactly when the pruned
deque has at least `min` samples and its hit rate (taken as zero on an empty
deque) reaches the threshold. -/
theorem RateOverWindow.update_fired (t : RateOverWindow) (s : HitSample) :
    ((t.update s).fired = true ↔
      t.fired = true ∨
        (t.min ≤ (t.update s).buf.length ∧
          t.th ≤ (if (t.update s).buf.length ≠ 0 then
              (((t.update s).buf.map HitSample.hit).sum : ℚ) / ((t.update s).buf.length : ℚ)
            else 0))) := by
  rw [RateOverWindow.update_buf]
  by_cases hm : t.min ≤ ((t.buf ++ [s]).dropWhile (fun x => decide (x.ts < s.ts - t.size))).length
  · simp [RateOverWindow.update, hm]
  · simp [RateOverWindow.update, hm]

/-- On a list sorted by timestamp, popping stale heads is the same as
filtering out every stale sample. -/
theorem dropWhile_lt_eq_filter (c : ℚ) (l : List HitSample)
    (hl : l.Pairwise (fun a b => a.ts ≤ b.ts)) :
    l.dropWhile (fun x => decide (x.ts < c)) = l.filter (fun x => decide (c ≤ x.ts)) := by
  induction l with
  | nil => rfl
  | cons x xs ih =>
    rw [List.pairwise_cons] at hl
    by_cases h : x.ts < c
    · rw [List.dropWhile_cons_of_pos (by simpa using h),
        List.filter_cons_of_neg (by simpa using not_le.mpr h)]
      exact ih hl.2
    · push_neg at h
      rw [List.dropWhile_cons_of_neg (by simpa using not_lt.mpr h),
        List.filter_cons_of_pos (by simpa using h)]
      congr 1
      exact (List.filter_eq_self.mpr (fun a ha => by simpa using le_trans h (hl.1 a ha))).symm

/-- Splitting an existential over the prefixes of a list extended by one
element. -/
theorem exists_prefix_append {α : Type} {P : List α → Prop} (q : List α) (s : α) :
    (∃ i < (q ++ [s]).length, P ((q ++ [s]).take (i + 1))) ↔
      (∃ i < q.length, P (q.take (i + 1))) ∨ P (q ++ [s]) := by
  constructor
  · rintro ⟨i, hi, hp⟩
    simp only [List.length_append, List.length_singleton] at hi
    rcases Nat.lt_or_ge i q.length with hlt | hge
    · exact Or.inl ⟨i, hlt, by rwa [List.take_append_of_le_length (by omega)] at hp⟩
    · have : i = q.length := by omega
      subst this
      rw [List.take_of_length_le (by simp)] at hp
      exact Or.inr hp
  · rintro (⟨i, hi, hp⟩ | hp)
    · exact ⟨i, by simp; omega, by rwa [List.take_append_of_le_length (by omega)]⟩
    · exact ⟨q.length, by simp, by rwa [List.take_of_length_le (by simp)]⟩

/-- Invariant of a freshly initialised `RateOverWindow` after feeding a
time-ordered sample sequence: the configuration fields are unchanged, the
deque holds exactly the samples at least as recent as `w` before the last
sample, and the trigger is fired exactly when some prefix of the sequence
satisfies the window condition at its last sample. -/
theorem RateOverWindow.feed_inv (w th : ℚ) (m : ℕ) (hw : 0 ≤ w) (l : List HitSample) :
    l.Pairwise (fun a b => a.ts ≤ b.ts) →
      ((RateOverWindow.init w th m).feed l).size = w ∧
      ((RateOverWindow.init w th m).feed l).th = th ∧
      ((RateOverWindow.init w th m).feed l).min = m ∧
      ((RateOverWindow.init w th m).feed l).buf = bufSpec w l ∧
      (((RateOverWindow.init w th m).feed l).fired = true ↔
        ∃ i < l.length, prefixCond w th m (l.take (i + 1))) := by
  induction l using List.reverseRecOn with
  | nil =>
    intro _
    refine ⟨rfl, rfl, rfl, rfl, ?_⟩
    simp [RateOverWindow.feed, RateOverWindow.init]
  | append_singleton q s ih =>
    intro hl
    obtain ⟨hq, -, hqs⟩ := List.pairwise_append.mp hl
    have hqs' : ∀ a ∈ q, a.ts ≤ s.ts := fun a ha => hqs a ha s (by simp)
    obtain ⟨hsize, hth, hmin, hbuf, hfired⟩ := ih hq
    have hsw : s.ts - w ≤ s.ts := by linarith
    have key : (bufSpec w q ++ [s]).dropWhile (fun x => decide (x.ts < s.ts - w))
        = (q ++ [s]).filter (fun x => decide (s.ts - w ≤ x.ts)) := by
      rcases q.eq_nil_or_concat with hqnil | ⟨q', z, hqz⟩
      · subst hqnil
        have h2 : s.ts ≤ s.ts + w := by linarith
        simp [bufSpec, List.dropWhile_cons, not_lt.mpr hsw, h2]
      · rw [List.concat_eq_append] at hqz
        subst hqz
        have hzq : z ∈ q' ++ [z] := by simp
        have hzs : z.ts ≤ s.ts := hqs' z hzq
        have hbspec : bufSpec w (q' ++ [z])
            = (q' ++ [z]).filter (fun x => decide (z.ts - w ≤ x.ts)) := by
          unfold bufSpec
          rw [List.getLast?_concat]
        have hsorted : ((q' ++ [z]).filter
            (fun x => decide (z.ts - w ≤ x.ts))).Pairwise (fun a b => a.ts ≤ b.ts) :=
          List.Pairwise.filter _ hq
        have hsorted2 : (((q' ++ [z]).filter
            (fun x => decide (z.ts - w ≤ x.ts))) ++ [s]).Pairwise (fun a b => a.ts ≤ b.ts) := by
          refine List.pairwise_append.mpr ⟨hsorted, by simp, ?_⟩
          intro a ha b hb
          rw [List.mem_singleton] at hb
          subst hb
          exact hqs' a (List.mem_of_mem_filter ha)
        rw [hbspec, dropWhile_lt_eq_filter _ _ hsorted2, List.filter_append,
          List.filter_filter]
        have hcong : ∀ a ∈ q' ++ [z],
            (decide (s.ts - w ≤ a.ts) && decide (z.ts - w ≤ a.ts))
              = decide (s.ts - w ≤ a.ts) := by
          intro a _
          by_cases hca : s.ts - w ≤ a.ts
          · have : z.ts - w ≤ a.ts := by linarith
            simp [hca, this]
          · simp [hca]
        rw [List.filter_congr hcong]
        conv_rhs => rw [List.filter_append]
    have hB : (((RateOverWindow.init w th m).feed q).update s).buf
        = (q ++ [s]).filter (fun x => decide (s.ts - w ≤ x.ts)) := by
      rw [RateOverWindow.update_buf, hsize, hbuf]
      exact key
    have hBspec : bufSpec w (q ++ [s])
        = (q ++ [s]).filter (fun x => decide (s.ts - w ≤ x.ts)) := by
      unfold bufSpec
      rw [List.getLast?_concat]
    have hS : windowSamples w (q ++ [s]) s.ts
        = (q ++ [s]).filter (fun x => decide (s.ts - w ≤ x.ts)) := by
      unfold windowSamples
      refine List.filter_congr ?_
      intro a ha
      have hle : a.ts ≤ s.ts := by
        rcases List.mem_append.mp ha with h | h
        · exact hqs' a h
        · rw [List.mem_singleton] at h
          subst h
          exact le_refl _
      simp [hle]
    have hsmem : s ∈ (q ++ [s]).filter (fun x => decide (s.ts - w ≤ x.ts)) :=
      List.mem_filter.mpr ⟨by simp, by simpa using hsw⟩
    have hlen : ((q ++ [s]).filter (fun x => decide (s.ts - w ≤ x.ts))).length ≠ 0 := by
      intro h0
      rw [List.length_eq_zero] at h0
      rw [h0] at hsmem
      exact (List.not_mem_nil s) hsmem
    rw [RateOverWindow.feed_snoc]
    obtain ⟨hps, hpt, hpm⟩ :=
      RateOverWindow.update_params ((RateOverWindow.init w th m).feed q) s
    refine ⟨by rw [hps, hsize], by rw [hpt, hth], by rw [hpm, hmin], ?_, ?_⟩
    · rw [hB, hBspec]
    · rw [RateOverWindow.update_fired, hfired, hB, hth, hmin,
        exists_prefix_append (P := prefixCond w th m)]
      have hpc : prefixCond w th m (q ++ [s]) ↔
          (m ≤ ((q ++ [s]).filter (fun x => decide (s.ts - w ≤ x.ts))).length ∧
            th ≤ ((((q ++ [s]).filter (fun x => decide (s.ts - w ≤ x.ts))).map
                HitSample.hit).sum : ℚ)
              / (((q ++ [s]).filter (fun x => decide (s.ts - w ≤ x.ts))).length : ℚ)) := by
        unfold prefixCond
        rw [List.getLast?_concat]
        dsimp only
        rw [hS]
      rw [hpc, if_pos hlen]

/-- C4.  For every nonnegative window `w`, threshold `th` and minimum sample
count `m`, and every finite sample sequence fed in non-decreasing time
order, the `RateOverWindow` trigger ends fired exactly when at the time `t`
of some sample the samples with timestamp in `[t - w, t]` number at least
`m` and their hit rate is at least `th`. -/
theorem rate_over_window_fired_iff (w th : ℚ) (m : ℕ) (l : List HitSample)
    (hw : 0 ≤ w) (hl : l.Pairwise (fun a b => a.ts ≤ b.ts)) :
    ((RateOverWindow.init w th m).feed l).fired = true ↔
      ∃ i < l.length, prefixCond w th m (l.take (i + 1)) :=
  (RateOverWindow.feed_inv w th m hw l hl).2.2.2.2

/-- Witness for C4: window 10, threshold one half, at least two samples, fed
hit, miss, hit; at the third sample the window holds three samples with hit
rate two thirds, so the trigger fires. -/
theorem rate_over_window_fired_iff_witness :
    ((RateOverWindow.init 10 (1/2) 2).feed [⟨0, 1⟩, ⟨1, 0⟩, ⟨2, 1⟩]).fired = true := by
  refine (rate_over_window_fired_iff 10 (1/2) 2 [⟨0, 1⟩, ⟨1, 0⟩, ⟨2, 1⟩]
    (by norm_num) (by decide)).mpr ⟨2, by norm_num, ?_⟩
  norm_num [prefixCond, windowSamples]

/-- The success and failure filters partition the record list. -/
theorem length_filter_error_partition (l : List RequestLifecycleMetric) :
    (l.filter (fun x => x.error.isNone)).length
      + (l.filter (fun x => x.error.isSome)).length = l.length := by
  induction l with
  | nil => rfl
  | cons a t ih => cases h : a.error <;> simp [List.filter_cons, h] <;> omega

/-- C6.  For every non-empty record list, whenever `summarize_requests`
produces a summary, the success count plus the failure count equals the load
summary count. -/
theorem summary_counts_partition (metrics : List RequestLifecycleMetric)
    (rate : Option ℚ) (h : metrics ≠ []) :
    (summarize_requests metrics rate).map
        (fun s => s.successes.count + s.failures.count)
      = (summarize_requests metrics rate).map (fun s => s.load_summary.count) := by
  cases metrics with
  | nil => exact absurd rfl h
  | cons m ms =>
    unfold summarize_requests
    dsimp only
    split
    · rfl
    · split
      · rfl
      · cases rate <;>
          simp [successfulOf, ← length_filter_error_partition (m :: ms)]

/-- Witness for C6 on a two-record list with one success and one failure. -/
theorem summary_counts_partition_witness :
    (summarize_requests
        [⟨some 0, 0, 0, 1, "a", some "ok", ⟨1, 1, []⟩, none⟩,
         ⟨some 0, 0, 0, 2, "b", some "no", ⟨1, 0, []⟩, some ⟨"500 oops", "no"⟩⟩] none).map
      (fun s => s.successes.count + s.failures.count)
    = (summarize_requests
        [⟨some 0, 0, 0, 1, "a", some "ok", ⟨1, 1, []⟩, none⟩,
         ⟨some 0, 0, 0, 2, "b", some "no", ⟨1, 0, []⟩, some ⟨"500 oops", "no"⟩⟩] none).map
      (fun s => s.load_summary.count) :=
  summary_counts_partition _ none (List.cons_ne_nil _ _)

/-- C7, counterexample.  A successful streaming record with exactly one
entry in `output_token_times` is excluded from the `time_to_first_token`
sample set: the `streamable` filter requires strictly more than one entry,
so on a list holding only that record the sample set is empty, its first
tick minus start value is not included, and the produced summary has no
`time_to_first_token` block. -/
theorem ttft_single_tick_excluded :
    ttftSamplesOf [⟨some 0, 0, 2, 9, "r", some "ok", ⟨3, 1, [5]⟩, none⟩] = [] ∧
    ((5 : ℚ) - 2) ∉ ttftSamplesOf [⟨some 0, 0, 2, 9, "r", some "ok", ⟨3, 1, [5]⟩, none⟩] ∧
    (summarize_requests [⟨some 0, 0, 2, 9, "r", some "ok", ⟨3, 1, [5]⟩, none⟩] none).map
      (fun s => s.successes.time_to_first_token) = some none := by
  refine ⟨rfl, ?_, by
    norm_num [summarize_requests, maxQ, minQ, summarize, ttftSamplesOf, streamableOf,
      successfulOf]⟩
  intro hmem
  rw [show ttftSamplesOf [⟨some 0, 0, 2, 9, "r", some "ok", ⟨3, 1, [5]⟩, none⟩] = []
    from rfl] at hmem
  exact (List.not_mem_nil _) hmem

/-- C7, amended.  `summarize_requests` includes `output_token_times[0] -
start_time` in the `time_to_first_token` sample set for every successful
record with at least two entries in `output_token_times` (single-tick
records are excluded by the `streamable` filter). -/
theorem ttft_includes_multi_tick_records (metrics : List RequestLifecycleMetric)
    (m : RequestLifecycleMetric) (hm : m ∈ metrics) (herr : m.error = none)
    (hlen : 2 ≤ m.info.output_token_times.length) :
    (m.info.output_token_times.headD 0 - m.start_time) ∈ ttftSamplesOf metrics := by
  unfold ttftSamplesOf streamableOf successfulOf
  refine List.mem_map.mpr ⟨m, ?_, rfl⟩
  refine List.mem_filter.mpr ⟨List.mem_filter.mpr ⟨hm, by simp [herr]⟩, ?_⟩
  have h0 : m.info.output_token_times ≠ [] := by
    intro hnil
    rw [hnil] at hlen
    simp at hlen
  simp [h0]
  omega

/-- Witness for C7 on a record with two token ticks. -/
theorem ttft_includes_multi_tick_records_witness :
    ((4 : ℚ) - 2) ∈ ttftSamplesOf
      [⟨some 0, 0, 2, 9, "r", some "ok", ⟨3, 2, [4, 6]⟩, none⟩] := by
  have h := ttft_includes_multi_tick_records
    [⟨some 0, 0, 2, 9, "r", some "ok", ⟨3, 2, [4, 6]⟩, none⟩]
    ⟨some 0, 0, 2, 9, "r", some "ok", ⟨3, 2, [4, 6]⟩, none⟩
    (List.mem_singleton_self _) rfl (by decide)
  simpa using h

/-- The maximum of a non-empty rational list is one of its elements. -/
theorem maxQ_mem (x : ℚ) (xs : List ℚ) : maxQ (x :: xs) ∈ x :: xs := by
  induction xs generalizing x with
  | nil => simp [maxQ]
  | cons y ys ih =>
    rw [maxQ]
    rcases max_choice x (maxQ (y :: ys)) with h | h
    · rw [h]
      exact List.mem_cons_self _ _
    · rw [h]
      exact List.mem_cons_of_mem _ (ih y)

/-- The minimum of a non-empty rational list is one of its elements. -/
theorem minQ_mem (x : ℚ) (xs : List ℚ) : minQ (x :: xs) ∈ x :: xs := by
  induction xs generalizing x with
  | nil => simp [minQ]
  | cons y ys ih =>
    rw [minQ]
    rcases min_choice x (minQ (y :: ys)) with h | h
    · rw [h]
      exact List.mem_cons_self _ _
    · rw [h]
      exact List.mem_cons_of_mem _ (ih y)

/-- When every record has the same `start_time`, a per-stage call of
`summarize_requests` (one passing a `stage_rate`) hits the division by a
zero `send_duration` at the `achieved_rate` computation, hence no summary. -/
theorem summarize_requests_const_start (ms : List RequestLifecycleMetric) (r : ℚ)
    (heq : ∀ a ∈ ms, ∀ b ∈ ms, a.start_time = b.start_time) :
    summarize_requests ms (some r) = none := by
  cases ms with
  | nil => rfl
  | cons m ms' =>
    have hall : ∀ y ∈ (m :: ms').map (fun x => x.start_time), y = m.start_time := by
      intro y hy
      obtain ⟨a, ha, rfl⟩ := List.mem_map.mp hy
      exact heq a ha m (List.mem_cons_self _ _)
    have hmax : maxQ ((m :: ms').map (fun x => x.start_time)) = m.start_time := by
      have hm : maxQ ((m :: ms').map (fun x => x.start_time))
          ∈ (m :: ms').map (fun x => x.start_time) := by
        rw [List.map_cons]
        exact maxQ_mem _ _
      exact hall _ hm
    have hmin : minQ ((m :: ms').map (fun x => x.start_time)) = m.start_time := by
      have hm : minQ ((m :: ms').map (fun x => x.start_time))
          ∈ (m :: ms').map (fun x => x.start_time) := by
        rw [List.map_cons]
        exact minQ_mem _ _
      exact hall _ hm
    unfold summarize_requests
    dsimp only
    rw [if_pos ⟨rfl, by rw [hmax, hmin]; ring⟩]

/-- C9.  `summarize_requests` is partial at its interface: it produces no
summary on an empty record list (Python raises on `max` of an empty
sequence), produces no summary when called with a stage rate on records
whose `start_time` values are all equal (the `achieved_rate` division by
zero), and therefore a per-stage summary exists only when the stage has at
least two distinct start times. -/
theorem summarize_requests_partiality :
    (∀ r : Option ℚ, summarize_requests [] r = none) ∧
    (∀ (ms : List RequestLifecycleMetric) (r : ℚ),
      (∀ a ∈ ms, ∀ b ∈ ms, a.start_time = b.start_time) →
        summarize_requests ms (some r) = none) ∧
    (∀ (ms : List RequestLifecycleMetric) (r : ℚ) (s : ResponsesSummary),
      summarize_requests ms (some r) = some s →
        ∃ a ∈ ms, ∃ b ∈ ms, a.start_time ≠ b.start_time) := by
  refine ⟨fun _ => rfl, fun ms r h => summarize_requests_const_start ms r h, ?_⟩
  intro ms r s hs
  by_contra hno
  push_neg at hno
  rw [summarize_requests_const_start ms r hno] at hs
  exact Option.noConfusion hs

/-- Witness for C9: two records sharing `start_time` 5 yield no per-stage
summary. -/
theorem summarize_requests_partiality_witness :
    summarize_requests
      [⟨none, 0, 5, 6, "a", none, ⟨1, 1, []⟩, none⟩,
       ⟨none, 0, 5, 7, "b", none, ⟨1, 1, []⟩, none⟩] (some 1) = none :=
  summarize_requests_partiality.2.1
    [⟨none, 0, 5, 6, "a", none, ⟨1, 1, []⟩, none⟩,
     ⟨none, 0, 5, 7, "b", none, ⟨1, 1, []⟩, none⟩] 1 (by decide)
